import Mathlib

/-!
Verification of the bulk command-batching pipeline (src/bulk.cpp).

The pipeline reads text lines, frames block delimiters, batches ordinary
commands up to a size threshold or an explicit block boundary, and emits one
joined synthetic command per flush to the console and file sinks.

The embedding below translates each C++ class into a pure Lean counterpart:
`Command` is the value type, `ConsoleInput.ProcessCommand` is the framing
step (depth counter plus the event it drives downstream),
`BatchCommandProcessor` holds the batch state with its `ProcessCommand`,
`StartBlock`, `FinishBlock`, `DumpBatch` operations and the destructor
`Shutdown`, and `RunBulk` drives the whole chain over a list of input
commands, returning the synthetic commands delivered to the sinks.
-/

/-- A command: opaque text payload plus creation timestamp
(modelled as seconds since the epoch). -/
structure Command where
  Text : String
  Timestamp : Nat
deriving DecidableEq

/-- The open-block delimiter token. -/
def openTok : String := "\x7b"

/-- The close-block delimiter token. -/
def closeTok : String := "\x7d"

namespace BatchCommandProcessor

/-- Mutable state of `BatchCommandProcessor`: the accumulated batch and the
forced-block flag. The threshold `mBulkSize` is passed as a parameter `N`. -/
structure State where
  mCommandBatch : List Command
  mBlockForced : Bool
deriving DecidableEq

/-- Conversion of the C++ `int` threshold to `size_t` as performed by the
comparison `mCommandBatch.size() >= mBulkSize`: the signed value is reduced
modulo 2^64. -/
def sizeT (n : Int) : Nat := (n % (2 ^ 64 : Int)).toNat

/-- `Join`: concatenate the texts of the batch, separated by a comma and a
space; the first element carries no separator (index 0 in the source loop). -/
def Join : List Command → String
  | [] => ""
  | c :: cs => cs.foldl (fun acc d => acc ++ ", " ++ d.Text) c.Text

/-- The synthetic command constructed by `DumpBatch` for a non-empty batch:
text is the literal tag followed by the joined payloads, timestamp is the
first batched command's timestamp. -/
def mkBulk : List Command → Command
  | [] => ⟨"bulk: ", 0⟩
  | c :: cs => ⟨"bulk: " ++ Join (c :: cs), c.Timestamp⟩

/-- `DumpBatch`: when a downstream stage exists and the batch is non-empty,
emit the synthetic joined command; in every case clear the batch. -/
def DumpBatch (hasNext : Bool) (s : State) : State × List Command :=
  (⟨[], s.mBlockForced⟩,
   if hasNext && !s.mCommandBatch.isEmpty then [mkBulk s.mCommandBatch] else [])

/-- `ProcessCommand`: append the command to the batch; flush when not forced
and the batch size reaches the threshold (compared as `size_t`). -/
def ProcessCommand (N : Int) (hasNext : Bool) (s : State) (c : Command) :
    State × List Command :=
  let s1 : State := ⟨s.mCommandBatch ++ [c], s.mBlockForced⟩
  if s1.mBlockForced = false ∧ sizeT N ≤ s1.mCommandBatch.length then
    DumpBatch hasNext s1
  else
    (s1, [])

/-- `StartBlock`: set the forced flag, then flush. -/
def StartBlock (hasNext : Bool) (s : State) : State × List Command :=
  DumpBatch hasNext ⟨s.mCommandBatch, true⟩

/-- `FinishBlock`: clear the forced flag, then flush. -/
def FinishBlock (hasNext : Bool) (s : State) : State × List Command :=
  DumpBatch hasNext ⟨s.mCommandBatch, false⟩

/-- The destructor: flush the trailing batch unless still inside a forced
block. -/
def Shutdown (hasNext : Bool) (s : State) : List Command :=
  if s.mBlockForced = false then (DumpBatch hasNext s).2 else []

end BatchCommandProcessor

/-- The event the framing stage drives into its downstream stage for one
input line: a block-start callback, a block-end callback, or an ordinary
forwarded command. -/
inductive FrameEvent where
  | start
  | finish
  | forward (c : Command)
deriving DecidableEq

namespace ConsoleInput

/-- `ConsoleInput::ProcessCommand` with a (non-null) downstream: an open
token post-increments the depth and fires `StartBlock` only when the depth
was 0; a close token pre-decrements the depth and fires `FinishBlock` only
when the new depth is 0; any other line is forwarded unchanged. -/
def ProcessCommand (depth : Int) (c : Command) : Int × Option FrameEvent :=
  if c.Text = openTok then
    (depth + 1, if depth = 0 then some .start else none)
  else if c.Text = closeTok then
    (depth - 1, if depth - 1 = 0 then some .finish else none)
  else
    (depth, some (.forward c))

end ConsoleInput

/-- Joint state of the pipeline: the framing stage's depth counter and the
batch processor's state. -/
structure PipeState where
  depth : Int
  bstate : BatchCommandProcessor.State
deriving DecidableEq

/-- Dispatch of a frame event into the batch processor, exactly as
`ConsoleInput` calls its downstream's virtual methods. -/
def applyEvent (N : Int) (s : BatchCommandProcessor.State) :
    FrameEvent → BatchCommandProcessor.State × List Command
  | .start => BatchCommandProcessor.StartBlock true s
  | .finish => BatchCommandProcessor.FinishBlock true s
  | .forward c => BatchCommandProcessor.ProcessCommand N true s c

/-- One line through the chain: framing step, then the event (if any) into
the batch processor; returns the new pipeline state and the synthetic
commands emitted downstream of the batch processor. -/
def pipeStep (N : Int) (st : PipeState) (c : Command) : PipeState × List Command :=
  match ConsoleInput.ProcessCommand st.depth c with
  | (d, none) => (⟨d, st.bstate⟩, [])
  | (d, some e) =>
    (⟨d, (applyEvent N st.bstate e).1⟩, (applyEvent N st.bstate e).2)

/-- The input loop of `RunBulk`: feed each line in order through the chain,
collecting the emitted synthetic commands. -/
def runLines (N : Int) (st : PipeState) : List Command → PipeState × List Command
  | [] => (st, [])
  | c :: cs =>
    ((runLines N (pipeStep N st c).1 cs).1,
     (pipeStep N st c).2 ++ (runLines N (pipeStep N st c).1 cs).2)

/-- Initial pipeline state: depth 0, empty batch, not forced. -/
def initState : PipeState := ⟨0, ⟨[], false⟩⟩

/-- `RunBulk`: process all input lines and then run the batch processor's
destructor (the trailing flush), returning every synthetic command the
batch stage delivered to the sinks, in order. -/
def RunBulk (N : Int) (lines : List Command) : List Command :=
  (runLines N initState lines).2 ++
    BatchCommandProcessor.Shutdown true (runLines N initState lines).1.bstate

/-- `ConsoleOutput`: each received command is echoed as one console line. -/
def ConsoleOutputLines (cmds : List Command) : List String := cmds.map Command.Text

/-- `ReportWriter::GetFilename`: derive the log file name from the
timestamp's seconds since the epoch. -/
def GetFilename (c : Command) : String := "bulk" ++ toString c.Timestamp ++ ".log"

/-- `ReportWriter`: each received command produces one file write of its
text under the derived name. -/
def ReportWriterFiles (cmds : List Command) : List (String × String) :=
  cmds.map fun c => (GetFilename c, c.Text)

/-- Whitespace as classified by C `isspace`, used by `atoi`. -/
def isSpaceC (c : Char) : Bool :=
  c = ' ' || c = '\t' || c = '\n' || c = '\x0b' || c = '\x0c' || c = '\r'

/-- Value of a decimal digit string, most significant first. -/
def natOfDigits (cs : List Char) : Nat :=
  cs.foldl (fun a c => a * 10 + (c.toNat - '0'.toNat)) 0

/-- C `atoi`: skip leading whitespace, accept an optional sign, read the
longest run of decimal digits (yielding 0 when there is none). -/
def atoi (s : String) : Int :=
  let cs := s.data.dropWhile isSpaceC
  match cs with
  | '-' :: rest => -(natOfDigits (rest.takeWhile Char.isDigit) : Int)
  | '+' :: rest => (natOfDigits (rest.takeWhile Char.isDigit) : Int)
  | _ => (natOfDigits (cs.takeWhile Char.isDigit) : Int)

/-- Observable outcome of `main`: the exit code, the diagnostics written to
the error stream, and the bulk size the pipeline was run with (none when no
pipeline was constructed). -/
structure MainOutcome where
  exitCode : Int
  errOut : List String
  pipelineBulkSize : Option Int
deriving DecidableEq

/-- `main` on its argument list (the arguments after the program name):
a missing argument or a parsed value of exactly 0 is a fatal startup error
with exit code 1 and a diagnostic; otherwise the pipeline runs with the
parsed value and the process exits 0. -/
def mainRun (args : List String) : MainOutcome :=
  match args with
  | [] => ⟨1, ["Bulk size is not specified."], none⟩
  | a :: _ =>
    if atoi a = 0 then ⟨1, ["Invalid bulk size."], none⟩
    else ⟨0, [], some (atoi a)⟩

/-! ## Auxiliary notions used by the statements -/

/-- A list of commands is ordinary when none of its texts is a block token. -/
def ordinary (l : List Command) : Prop :=
  ∀ c ∈ l, c.Text ≠ openTok ∧ c.Text ≠ closeTok

instance (l : List Command) : Decidable (ordinary l) := by
  unfold ordinary; infer_instance

/-- Split a list into consecutive chunks of `n` elements, the last chunk
possibly shorter; meaningful for `0 < n`. -/
def chunksOf {α : Type} (n : Nat) : List α → List (List α)
  | [] => []
  | c :: cs => (c :: cs.take (n - 1)) :: chunksOf n (cs.drop (n - 1))
termination_by l => l.length
decreasing_by simp [List.length_drop]; omega

/-- Number of open-block tokens in the input. -/
def countOpen (l : List Command) : Nat := l.countP (fun c => c.Text == openTok)

/-- Number of close-block tokens in the input. -/
def countClose (l : List Command) : Nat := l.countP (fun c => c.Text == closeTok)

/-- The tail of a comma-space join: each element preceded by the separator. -/
def joinTail : List Command → String
  | [] => ""
  | d :: ds => ", " ++ d.Text ++ joinTail ds

/-- Modelled from the spec: joining texts in order with a comma and a space
between adjacent elements, no leading or trailing separator, a singleton
joined to itself. Used to compare `BatchCommandProcessor.Join` against the
spec's description of the flush format. -/
def joinSpec : List String → String
  | [] => ""
  | [t] => t
  | t :: ts => t ++ ", " ++ joinSpec ts

/-- The batch processor driven alone over a list of commands with a live
downstream, collecting the synthetic commands it emits. -/
def procList (N : Int) (s : BatchCommandProcessor.State) :
    List Command → BatchCommandProcessor.State × List Command
  | [] => (s, [])
  | c :: cs =>
    ((procList N (BatchCommandProcessor.ProcessCommand N true s c).1 cs).1,
     (BatchCommandProcessor.ProcessCommand N true s c).2 ++
       (procList N (BatchCommandProcessor.ProcessCommand N true s c).1 cs).2)

/-! ## Basic lemmas about the embedded operations -/

theorem sizeT_of_pos {N : Int} (h1 : 0 < N) (h2 : N < 2 ^ 31) :
    BatchCommandProcessor.sizeT N = N.toNat := by
  unfold BatchCommandProcessor.sizeT
  rw [show ((2 : Int) ^ 64) = 18446744073709551616 by norm_num]
  omega

theorem sizeT_of_neg {N : Int} (h1 : N < 0) (h2 : -(2 ^ 31) ≤ N) :
    BatchCommandProcessor.sizeT N = (2 ^ 64 + N).toNat := by
  unfold BatchCommandProcessor.sizeT
  rw [show ((2 : Int) ^ 64) = 18446744073709551616 by norm_num]
  rw [show ((2 : Int) ^ 31) = 2147483648 by norm_num] at h2
  omega

theorem DumpBatch_fst (hasNext : Bool) (s : BatchCommandProcessor.State) :
    (BatchCommandProcessor.DumpBatch hasNext s).1 = ⟨[], s.mBlockForced⟩ := rfl

theorem DumpBatch_snd (s : BatchCommandProcessor.State) :
    (BatchCommandProcessor.DumpBatch true s).2 =
      if s.mCommandBatch = [] then []
      else [BatchCommandProcessor.mkBulk s.mCommandBatch] := by
  unfold BatchCommandProcessor.DumpBatch
  cases h : s.mCommandBatch <;> simp [h]

theorem Shutdown_not_forced (s : BatchCommandProcessor.State)
    (h : s.mBlockForced = false) :
    BatchCommandProcessor.Shutdown true s =
      (BatchCommandProcessor.DumpBatch true s).2 := by
  unfold BatchCommandProcessor.Shutdown
  rw [if_pos h]

theorem ProcessCommand_eval (N : Int) (hasNext : Bool) (b : List Command)
    (f : Bool) (c : Command) :
    BatchCommandProcessor.ProcessCommand N hasNext ⟨b, f⟩ c =
      if f = false ∧ BatchCommandProcessor.sizeT N ≤ b.length + 1 then
        BatchCommandProcessor.DumpBatch hasNext ⟨b ++ [c], f⟩
      else (⟨b ++ [c], f⟩, []) := by
  unfold BatchCommandProcessor.ProcessCommand
  simp

theorem ProcessCommand_forced (N : Int) (hasNext : Bool)
    (s : BatchCommandProcessor.State) (c : Command)
    (h : s.mBlockForced = true) :
    BatchCommandProcessor.ProcessCommand N hasNext s c =
      (⟨s.mCommandBatch ++ [c], true⟩, []) := by
  unfold BatchCommandProcessor.ProcessCommand
  simp [h]

theorem ProcessCommand_flag (N : Int) (hasNext : Bool)
    (s : BatchCommandProcessor.State) (c : Command) :
    (BatchCommandProcessor.ProcessCommand N hasNext s c).1.mBlockForced =
      s.mBlockForced := by
  obtain ⟨b, f⟩ := s
  rw [ProcessCommand_eval]
  split <;> rfl

theorem procList_forced (N : Int) (b cs : List Command) :
    procList N ⟨b, true⟩ cs = (⟨b ++ cs, true⟩, []) := by
  induction cs generalizing b with
  | nil => simp [procList]
  | cons c cs ih =>
    simp [procList, ProcessCommand_forced, ih]

theorem procList_flag (N : Int) (s : BatchCommandProcessor.State)
    (cs : List Command) :
    (procList N s cs).1.mBlockForced = s.mBlockForced := by
  induction cs generalizing s with
  | nil => rfl
  | cons c cs ih => simp [procList, ih, ProcessCommand_flag]

theorem chunksOf_cons {α : Type} {n : Nat} (hn : 0 < n) (l : List α)
    (hl : l ≠ []) :
    chunksOf n l = l.take n :: chunksOf n (l.drop n) := by
  cases l with
  | nil => exact absurd rfl hl
  | cons c cs =>
    cases n with
    | zero => omega
    | succ m => simp [chunksOf]

theorem chunksOf_short {α : Type} {n : Nat} (l : List α) (h0 : l ≠ [])
    (h1 : l.length ≤ n) :
    chunksOf n l = [l] := by
  have hn : 0 < n := by
    cases l with
    | nil => exact absurd rfl h0
    | cons c cs => have := List.length_cons c cs ▸ h1; omega
  rw [chunksOf_cons hn l h0, List.take_of_length_le h1,
    List.drop_eq_nil_of_le h1]
  simp [chunksOf]

theorem procList_chunks (N : Int) (n : Nat) (hn : 0 < n)
    (hsz : BatchCommandProcessor.sizeT N = n) :
    ∀ (cs b : List Command), b.length < n →
      (procList N ⟨b, false⟩ cs).2 ++
        BatchCommandProcessor.Shutdown true (procList N ⟨b, false⟩ cs).1 =
      (chunksOf n (b ++ cs)).map BatchCommandProcessor.mkBulk := by
  intro cs
  induction cs with
  | nil =>
    intro b hb
    rw [show procList N ⟨b, false⟩ [] = (⟨b, false⟩, []) from rfl]
    rw [Shutdown_not_forced _ rfl, DumpBatch_snd]
    simp only [List.append_nil, List.nil_append]
    cases b with
    | nil => simp [chunksOf]
    | cons x xs =>
      rw [chunksOf_short (x :: xs) (by simp) hb.le]
      simp
  | cons c cs ih =>
    intro b hb
    simp only [procList, ProcessCommand_eval]
    by_cases hfull : b.length + 1 = n
    · rw [if_pos (by simp [hsz]; omega)]
      rw [show (BatchCommandProcessor.DumpBatch true
          ⟨b ++ [c], false⟩ : BatchCommandProcessor.State × List Command).1 =
          ⟨[], false⟩ from rfl]
      have hout : (BatchCommandProcessor.DumpBatch true
          (⟨b ++ [c], false⟩ : BatchCommandProcessor.State)).2 =
          [BatchCommandProcessor.mkBulk (b ++ [c])] := by
        rw [DumpBatch_snd]; simp
      rw [hout]
      have hrw : b ++ c :: cs = (b ++ [c]) ++ cs := by simp
      rw [hrw, chunksOf_cons hn _ (by simp),
        List.take_left' (by simp; omega), List.drop_left' (by simp; omega)]
      have hih := ih [] hn
      simp only [List.nil_append, List.length_nil] at hih
      simp [hih]
    · rw [if_neg (by simp [hsz]; omega)]
      have hih := ih (b ++ [c]) (by simp; omega)
      simpa [List.append_assoc] using hih

/-! ## Framing and pipeline lemmas -/

theorem frame_forward (d : Int) (c : Command) (h1 : c.Text ≠ openTok)
    (h2 : c.Text ≠ closeTok) :
    ConsoleInput.ProcessCommand d c = (d, some (.forward c)) := by
  unfold ConsoleInput.ProcessCommand
  rw [if_neg h1, if_neg h2]

theorem frame_open (d : Int) (c : Command) (h : c.Text = openTok) :
    ConsoleInput.ProcessCommand d c =
      (d + 1, if d = 0 then some .start else none) := by
  unfold ConsoleInput.ProcessCommand
  rw [if_pos h]

theorem frame_close (d : Int) (c : Command) (h : c.Text = closeTok) :
    ConsoleInput.ProcessCommand d c =
      (d - 1, if d - 1 = 0 then some .finish else none) := by
  unfold ConsoleInput.ProcessCommand
  have h1 : c.Text ≠ openTok := by rw [h]; decide
  rw [if_neg h1, if_pos h]

theorem pipeStep_forward (N : Int) (st : PipeState) (c : Command)
    (h1 : c.Text ≠ openTok) (h2 : c.Text ≠ closeTok) :
    pipeStep N st c =
      (⟨st.depth, (BatchCommandProcessor.ProcessCommand N true st.bstate c).1⟩,
       (BatchCommandProcessor.ProcessCommand N true st.bstate c).2) := by
  unfold pipeStep
  rw [frame_forward st.depth c h1 h2]
  rfl

theorem pipeStep_open0 (N : Int) (st : PipeState) (c : Command)
    (h : c.Text = openTok) (hd : st.depth = 0) :
    pipeStep N st c =
      (⟨st.depth + 1, (BatchCommandProcessor.StartBlock true st.bstate).1⟩,
       (BatchCommandProcessor.StartBlock true st.bstate).2) := by
  unfold pipeStep
  rw [frame_open st.depth c h, if_pos hd]
  rfl

theorem pipeStep_open_deep (N : Int) (st : PipeState) (c : Command)
    (h : c.Text = openTok) (hd : st.depth ≠ 0) :
    pipeStep N st c = (⟨st.depth + 1, st.bstate⟩, []) := by
  unfold pipeStep
  rw [frame_open st.depth c h, if_neg hd]

theorem pipeStep_close1 (N : Int) (st : PipeState) (c : Command)
    (h : c.Text = closeTok) (hd : st.depth = 1) :
    pipeStep N st c =
      (⟨st.depth - 1, (BatchCommandProcessor.FinishBlock true st.bstate).1⟩,
       (BatchCommandProcessor.FinishBlock true st.bstate).2) := by
  unfold pipeStep
  rw [frame_close st.depth c h, if_pos (by omega)]
  rfl

theorem pipeStep_close_deep (N : Int) (st : PipeState) (c : Command)
    (h : c.Text = closeTok) (hd : st.depth ≠ 1) :
    pipeStep N st c = (⟨st.depth - 1, st.bstate⟩, []) := by
  unfold pipeStep
  rw [frame_close st.depth c h, if_neg (by omega)]

theorem runLines_append (N : Int) (st : PipeState) (l1 l2 : List Command) :
    runLines N st (l1 ++ l2) =
      ((runLines N (runLines N st l1).1 l2).1,
       (runLines N st l1).2 ++ (runLines N (runLines N st l1).1 l2).2) := by
  induction l1 generalizing st with
  | nil => simp [runLines]
  | cons c cs ih => simp [runLines, ih, List.append_assoc]

theorem runLines_ordinary (N : Int) (lines : List Command) (h : ordinary lines)
    (d : Int) (bs : BatchCommandProcessor.State) :
    runLines N ⟨d, bs⟩ lines =
      (⟨d, (procList N bs lines).1⟩, (procList N bs lines).2) := by
  induction lines generalizing bs with
  | nil => simp [runLines, procList]
  | cons c cs ih =>
    have hc := h c (by simp)
    have hcs : ordinary cs := fun x hx => h x (by simp [hx])
    simp only [runLines, procList,
      pipeStep_forward N ⟨d, bs⟩ c hc.1 hc.2, ih hcs]

theorem runLines_ordinary_forced (N : Int) (lines : List Command)
    (h : ordinary lines) (d : Int) (b : List Command) :
    runLines N ⟨d, ⟨b, true⟩⟩ lines = (⟨d, ⟨b ++ lines, true⟩⟩, []) := by
  rw [runLines_ordinary N lines h d ⟨b, true⟩, procList_forced]

theorem openTok_ne_closeTok : openTok ≠ closeTok := by decide

theorem pipeStep_depth (N : Int) (st : PipeState) (c : Command) :
    (pipeStep N st c).1.depth =
      st.depth + (if c.Text = openTok then 1 else 0)
        - (if c.Text = closeTok then 1 else 0) := by
  by_cases h1 : c.Text = openTok
  · have h2 : c.Text ≠ closeTok := by rw [h1]; exact openTok_ne_closeTok
    by_cases hd : st.depth = 0
    · rw [pipeStep_open0 N st c h1 hd]; simp [h1, h2, openTok_ne_closeTok]
    · rw [pipeStep_open_deep N st c h1 hd]; simp [h1, h2, openTok_ne_closeTok]
  · by_cases h2 : c.Text = closeTok
    · have h3 : closeTok ≠ openTok := Ne.symm openTok_ne_closeTok
      by_cases hd : st.depth = 1
      · rw [pipeStep_close1 N st c h2 hd]; simp [h1, h2, h3]
      · rw [pipeStep_close_deep N st c h2 hd]; simp [h1, h2, h3]
    · rw [pipeStep_forward N st c h1 h2]; simp [h1, h2]

theorem runLines_depth (N : Int) (lines : List Command) (st : PipeState) :
    (runLines N st lines).1.depth =
      st.depth + (countOpen lines : Int) - (countClose lines : Int) := by
  induction lines generalizing st with
  | nil => simp [runLines, countOpen, countClose]
  | cons c cs ih =>
    simp only [runLines]
    rw [ih, pipeStep_depth]
    have ho : countOpen (c :: cs) =
        countOpen cs + (if c.Text = openTok then 1 else 0) := by
      unfold countOpen
      rw [List.countP_cons]
      by_cases h : c.Text = openTok <;> simp [h]
    have hc : countClose (c :: cs) =
        countClose cs + (if c.Text = closeTok then 1 else 0) := by
      unfold countClose
      rw [List.countP_cons]
      by_cases h : c.Text = closeTok <;> simp [h]
    rw [ho, hc]
    by_cases h1 : c.Text = openTok <;> by_cases h2 : c.Text = closeTok <;>
      simp [h1, h2] <;> omega

theorem foldl_join (cs : List Command) (acc : String) :
    cs.foldl (fun a d => a ++ ", " ++ d.Text) acc = acc ++ joinTail cs := by
  induction cs generalizing acc with
  | nil => simp [joinTail]
  | cons d ds ih =>
    rw [List.foldl_cons, ih]
    simp [joinTail, String.append_assoc]

theorem joinSpec_cons (t : String) (cs : List Command) :
    joinSpec (t :: cs.map Command.Text) = t ++ joinTail cs := by
  induction cs generalizing t with
  | nil => simp [joinSpec, joinTail]
  | cons d ds ih => simp [joinSpec, joinTail, ih, String.append_assoc]

theorem Join_eq_joinSpec (v : List Command) :
    BatchCommandProcessor.Join v = joinSpec (v.map Command.Text) := by
  cases v with
  | nil => rfl
  | cons c cs =>
    have hJ : BatchCommandProcessor.Join (c :: cs) =
        cs.foldl (fun acc d => acc ++ ", " ++ d.Text) c.Text := rfl
    rw [hJ, foldl_join, List.map_cons, joinSpec_cons]

/-! ## Claim theorems -/

/-- C1: for every threshold N greater than 0 and every brace-free input
sequence of ordinary commands, the pipeline's full output equals the input
split into consecutive chunks of N commands, each flushed as one joined
synthetic command: a flush to downstream after every N-th command, and the
k mod N leftover commands flushed exactly once at end of stream by the
shutdown drain, never more than once and never dropped. -/
theorem C1_size_batching (N : Int) (hN : 0 < N) (h31 : N < 2 ^ 31)
    (cmds : List Command) (h : ordinary cmds) :
    RunBulk N cmds =
      (chunksOf N.toNat cmds).map BatchCommandProcessor.mkBulk := by
  have hsz : BatchCommandProcessor.sizeT N = N.toNat := sizeT_of_pos hN h31
  have hn : 0 < N.toNat := by omega
  unfold RunBulk initState
  rw [runLines_ordinary N cmds h 0 ⟨[], false⟩]
  have hmain := procList_chunks N N.toNat hn hsz cmds [] hn
  simpa using hmain

/-- Witness for C1: the spec's concrete scenario with threshold 3 and the
four commands a, b, c, d. -/
theorem C1_size_batching_witness :
    RunBulk 3 [⟨"a", 0⟩, ⟨"b", 1⟩, ⟨"c", 2⟩, ⟨"d", 3⟩] =
      (chunksOf (3 : Int).toNat [⟨"a", 0⟩, ⟨"b", 1⟩, ⟨"c", 2⟩, ⟨"d", 3⟩]).map
        BatchCommandProcessor.mkBulk :=
  C1_size_batching 3 (by decide) (by decide) _ (by decide)

/-- C3: a flush of a non-empty batch emits exactly one synthetic command,
text the literal tag "bulk: " followed by the batched texts joined in order
with a comma and a space (no separator for a singleton, none leading or
trailing), timestamp the first batched command's; an empty batch emits no
synthetic command; and the batch is cleared afterward in every case,
whether or not a downstream stage exists. -/
theorem C3_flush_format (hasNext : Bool) (s : BatchCommandProcessor.State) :
    (BatchCommandProcessor.DumpBatch hasNext s).1 = ⟨[], s.mBlockForced⟩ ∧
    (s.mCommandBatch = [] →
      (BatchCommandProcessor.DumpBatch hasNext s).2 = []) ∧
    (∀ c cs, s.mCommandBatch = c :: cs →
      (BatchCommandProcessor.DumpBatch true s).2 =
        [⟨"bulk: " ++ BatchCommandProcessor.Join (c :: cs), c.Timestamp⟩]) ∧
    (∀ v, BatchCommandProcessor.Join v = joinSpec (v.map Command.Text)) := by
  refine ⟨rfl, ?_, ?_, Join_eq_joinSpec⟩
  · intro h
    unfold BatchCommandProcessor.DumpBatch
    simp [h]
  · intro c cs h
    rw [DumpBatch_snd, h]
    simp [BatchCommandProcessor.mkBulk]

/-- Witness for C3 at a concrete singleton batch. -/
theorem C3_flush_format_witness :
    (BatchCommandProcessor.DumpBatch true ⟨[⟨"a", 5⟩], false⟩).1 =
      ⟨[], false⟩ ∧
    (BatchCommandProcessor.DumpBatch true ⟨[⟨"a", 5⟩], false⟩).2 =
      [⟨"bulk: " ++ BatchCommandProcessor.Join [⟨"a", 5⟩], 5⟩] ∧
    BatchCommandProcessor.Join [⟨"a", 5⟩] = joinSpec ["a"] :=
  ⟨(C3_flush_format true ⟨[⟨"a", 5⟩], false⟩).1,
   (C3_flush_format true ⟨[⟨"a", 5⟩], false⟩).2.2.1 ⟨"a", 5⟩ [] rfl,
   by
     have h := (C3_flush_format true ⟨[⟨"a", 5⟩], false⟩).2.2.2 [⟨"a", 5⟩]
     simpa using h⟩

/-! ## Segment lemmas for block scenarios -/

theorem runLines_cons (N : Int) (st : PipeState) (c : Command)
    (cs : List Command) :
    runLines N st (c :: cs) =
      ((runLines N (pipeStep N st c).1 cs).1,
       (pipeStep N st c).2 ++ (runLines N (pipeStep N st c).1 cs).2) := rfl

theorem StartBlock_fst (s : BatchCommandProcessor.State) :
    (BatchCommandProcessor.StartBlock true s).1 = ⟨[], true⟩ := rfl

theorem FinishBlock_fst (s : BatchCommandProcessor.State) :
    (BatchCommandProcessor.FinishBlock true s).1 = ⟨[], false⟩ := rfl

theorem StartBlock_snd (s : BatchCommandProcessor.State) :
    (BatchCommandProcessor.StartBlock true s).2 =
      if s.mCommandBatch = [] then []
      else [BatchCommandProcessor.mkBulk s.mCommandBatch] := by
  show (BatchCommandProcessor.DumpBatch true ⟨s.mCommandBatch, true⟩).2 = _
  rw [DumpBatch_snd]

theorem FinishBlock_snd (s : BatchCommandProcessor.State) :
    (BatchCommandProcessor.FinishBlock true s).2 =
      if s.mCommandBatch = [] then []
      else [BatchCommandProcessor.mkBulk s.mCommandBatch] := by
  show (BatchCommandProcessor.DumpBatch true ⟨s.mCommandBatch, false⟩).2 = _
  rw [DumpBatch_snd]

theorem Shutdown_clean :
    BatchCommandProcessor.Shutdown true ⟨[], false⟩ = [] := rfl

theorem Shutdown_forced (s : BatchCommandProcessor.State)
    (h : s.mBlockForced = true) :
    BatchCommandProcessor.Shutdown true s = [] := by
  unfold BatchCommandProcessor.Shutdown
  rw [h]
  rfl

/-- Processing an ordinary prefix from the initial state followed by an
open token: the remaining partial batch is drained by the block-start
flush, so exactly the chunking of the prefix has been emitted, and the
processor is left forced with an empty batch at depth 1. -/
theorem runLines_pre_open (N : Int) (n : Nat) (hn : 0 < n)
    (hsz : BatchCommandProcessor.sizeT N = n) (pre : List Command)
    (hpre : ordinary pre) (o : Command) (ho : o.Text = openTok) :
    runLines N initState (pre ++ [o]) =
      (⟨1, ⟨[], true⟩⟩,
       (chunksOf n pre).map BatchCommandProcessor.mkBulk) := by
  unfold initState
  rw [runLines_append, runLines_ordinary N pre hpre 0 ⟨[], false⟩]
  have hflag : (procList N ⟨[], false⟩ pre).1.mBlockForced = false :=
    procList_flag N ⟨[], false⟩ pre
  rw [runLines_cons]
  rw [pipeStep_open0 N ⟨0, (procList N ⟨[], false⟩ pre).1⟩ o ho rfl]
  have hsh : (BatchCommandProcessor.StartBlock true
      (procList N ⟨[], false⟩ pre).1).2 =
      BatchCommandProcessor.Shutdown true (procList N ⟨[], false⟩ pre).1 := by
    rw [Shutdown_not_forced _ hflag, StartBlock_snd, DumpBatch_snd]
  have hmain := procList_chunks N n hn hsz pre [] hn
  simp only [List.nil_append] at hmain
  simp [runLines, StartBlock_fst, hsh, hmain]

/-- A close token at depth 1 with a forced batch: the block's contents are
flushed and the processor returns to the relaxed state at depth 0. -/
theorem runLines_close_finish (N : Int) (d : Int) (hd : d = 1)
    (bb : List Command) (c : Command) (hc : c.Text = closeTok) :
    runLines N ⟨d, ⟨bb, true⟩⟩ [c] =
      (⟨0, ⟨[], false⟩⟩,
       if bb = [] then [] else [BatchCommandProcessor.mkBulk bb]) := by
  subst hd
  rw [runLines_cons]
  rw [pipeStep_close1 N ⟨1, ⟨bb, true⟩⟩ c hc rfl]
  simp [runLines, FinishBlock_fst, FinishBlock_snd]

theorem pipeStep_open_deep' (N : Int) (d : Int)
    (bs : BatchCommandProcessor.State) (c : Command)
    (h : c.Text = openTok) (hd : d ≠ 0) :
    pipeStep N ⟨d, bs⟩ c = (⟨d + 1, bs⟩, []) :=
  pipeStep_open_deep N ⟨d, bs⟩ c h hd

theorem pipeStep_close_deep' (N : Int) (d : Int)
    (bs : BatchCommandProcessor.State) (c : Command)
    (h : c.Text = closeTok) (hd : d ≠ 1) :
    pipeStep N ⟨d, bs⟩ c = (⟨d - 1, bs⟩, []) :=
  pipeStep_close_deep N ⟨d, bs⟩ c h hd

/-- C2: for an input with a balanced outermost block, the block boundary
accounts for exactly two flushes: the open token drains whatever had
accumulated before the block (the final partial chunk of the prefix, never
merged into the block's batch), and the close token flushes the block's
full contents regardless of its size relative to N; and while the forced
flag is set, `ProcessCommand` only appends and never auto-flushes no matter
how large the batch has grown. -/
theorem C2_block_flushes (N : Int) (hN : 0 < N) (h31 : N < 2 ^ 31)
    (pre blk : List Command) (o c : Command)
    (ho : o.Text = openTok) (hc : c.Text = closeTok)
    (hpre : ordinary pre) (hblk : ordinary blk) :
    RunBulk N (pre ++ o :: (blk ++ [c])) =
      (chunksOf N.toNat pre).map BatchCommandProcessor.mkBulk ++
        (if blk = [] then [] else [BatchCommandProcessor.mkBulk blk]) ∧
    (∀ (s : BatchCommandProcessor.State) (cmd : Command),
      s.mBlockForced = true →
      BatchCommandProcessor.ProcessCommand N true s cmd =
        (⟨s.mCommandBatch ++ [cmd], true⟩, [])) := by
  have hsz := sizeT_of_pos hN h31
  have hn : 0 < N.toNat := by omega
  constructor
  · have hin : pre ++ o :: (blk ++ [c]) = (pre ++ [o]) ++ (blk ++ [c]) := by
      simp
    unfold RunBulk
    rw [hin, runLines_append, runLines_pre_open N N.toNat hn hsz pre hpre o ho]
    rw [runLines_append, runLines_ordinary_forced N blk hblk 1 []]
    simp only [List.nil_append]
    rw [runLines_close_finish N 1 rfl blk c hc]
    simp [Shutdown_clean]
  · intro s cmd hs
    exact ProcessCommand_forced N true s cmd hs

/-- Witness for C2: the spec's scenario with threshold 100, one command
before the block and two inside it. -/
theorem C2_block_flushes_witness :
    RunBulk 100 [⟨"x", 0⟩, ⟨"\x7b", 1⟩, ⟨"y", 2⟩, ⟨"z", 3⟩, ⟨"\x7d", 4⟩] =
      (chunksOf (100 : Int).toNat [(⟨"x", 0⟩ : Command)]).map
        BatchCommandProcessor.mkBulk ++
        (if ([⟨"y", 2⟩, ⟨"z", 3⟩] : List Command) = [] then []
         else [BatchCommandProcessor.mkBulk [⟨"y", 2⟩, ⟨"z", 3⟩]]) :=
  (C2_block_flushes 100 (by decide) (by decide) [⟨"x", 0⟩]
    [⟨"y", 2⟩, ⟨"z", 3⟩] ⟨"\x7b", 1⟩ ⟨"\x7d", 4⟩ rfl rfl
    (by decide) (by decide)).1

/-- C4: when the stream ends inside an unterminated block, the destructor
does not flush the forced partial batch, so the block's contents appear in
no output at all: the pipeline's synthetic commands are exactly the chunks
of the pre-block prefix, and hence neither the console lines nor the file
writes mention the block's commands. -/
theorem C4_unterminated_block (N : Int) (hN : 0 < N) (h31 : N < 2 ^ 31)
    (pre blk : List Command) (o : Command) (ho : o.Text = openTok)
    (hpre : ordinary pre) (hblk : ordinary blk) :
    RunBulk N (pre ++ o :: blk) =
      (chunksOf N.toNat pre).map BatchCommandProcessor.mkBulk ∧
    ConsoleOutputLines (RunBulk N (pre ++ o :: blk)) =
      ((chunksOf N.toNat pre).map BatchCommandProcessor.mkBulk).map
        Command.Text ∧
    ReportWriterFiles (RunBulk N (pre ++ o :: blk)) =
      ((chunksOf N.toNat pre).map BatchCommandProcessor.mkBulk).map
        (fun c => (GetFilename c, c.Text)) ∧
    (∀ s : BatchCommandProcessor.State, s.mBlockForced = true →
      BatchCommandProcessor.Shutdown true s = []) := by
  have hsz := sizeT_of_pos hN h31
  have hn : 0 < N.toNat := by omega
  have hmain : RunBulk N (pre ++ o :: blk) =
      (chunksOf N.toNat pre).map BatchCommandProcessor.mkBulk := by
    have hin : pre ++ o :: blk = (pre ++ [o]) ++ blk := by simp
    unfold RunBulk
    rw [hin, runLines_append, runLines_pre_open N N.toNat hn hsz pre hpre o ho]
    rw [runLines_ordinary_forced N blk hblk 1 []]
    simp [Shutdown_forced]
  exact ⟨hmain, by rw [hmain]; rfl, by rw [hmain]; rfl, Shutdown_forced⟩

/-- Witness for C4: threshold 3, one command before the block, one inside
the never-closed block. -/
theorem C4_unterminated_block_witness :
    RunBulk 3 [⟨"x", 0⟩, ⟨"\x7b", 1⟩, ⟨"y", 2⟩] =
      (chunksOf (3 : Int).toNat [(⟨"x", 0⟩ : Command)]).map
        BatchCommandProcessor.mkBulk :=
  (C4_unterminated_block 3 (by decide) (by decide) [⟨"x", 0⟩] [⟨"y", 2⟩]
    ⟨"\x7b", 1⟩ rfl (by decide) (by decide)).1

/-- C5: for nested blocks only the outermost delimiter pair drives the
block lifecycle: an open token fires the start callback exactly on the
depth transition 0 to 1 and a close token fires the finish callback exactly
on the transition 1 to 0; inner tokens only adjust the depth, are never
forwarded as commands, and the joined output of a nested-block run contains
exactly the prefix chunks and one batch holding the ordinary commands of
the whole outer block, with no delimiter text. -/
theorem C5_nested_blocks (N : Int) (hN : 0 < N) (h31 : N < 2 ^ 31)
    (pre a b c : List Command) (o1 o2 c1 c2 : Command)
    (ho1 : o1.Text = openTok) (ho2 : o2.Text = openTok)
    (hc1 : c1.Text = closeTok) (hc2 : c2.Text = closeTok)
    (hpre : ordinary pre) (ha : ordinary a) (hb : ordinary b)
    (hcl : ordinary c) :
    RunBulk N (pre ++ o1 :: (a ++ o2 :: (b ++ c1 :: (c ++ [c2])))) =
      (chunksOf N.toNat pre).map BatchCommandProcessor.mkBulk ++
        (if a ++ b ++ c = [] then []
         else [BatchCommandProcessor.mkBulk (a ++ b ++ c)]) ∧
    (∀ (d : Int) (cmd : Command), cmd.Text = openTok →
      ConsoleInput.ProcessCommand d cmd =
        (d + 1, if d = 0 then some .start else none)) ∧
    (∀ (d : Int) (cmd : Command), cmd.Text = closeTok →
      ConsoleInput.ProcessCommand d cmd =
        (d - 1, if d = 1 then some .finish else none)) ∧
    (∀ (d : Int) (cmd : Command) (x : Command),
      cmd.Text = openTok ∨ cmd.Text = closeTok →
      (ConsoleInput.ProcessCommand d cmd).2 ≠ some (.forward x)) := by
  refine ⟨?_, ?_, ?_, ?_⟩
  · have hsz := sizeT_of_pos hN h31
    have hn : 0 < N.toNat := by omega
    have hin : pre ++ o1 :: (a ++ o2 :: (b ++ c1 :: (c ++ [c2]))) =
        (pre ++ [o1]) ++ (a ++ (o2 :: (b ++ (c1 :: (c ++ [c2]))))) := by simp
    unfold RunBulk
    rw [hin, runLines_append,
      runLines_pre_open N N.toNat hn hsz pre hpre o1 ho1]
    rw [runLines_append, runLines_ordinary_forced N a ha 1 []]
    simp only [List.nil_append]
    rw [runLines_cons]
    rw [pipeStep_open_deep' N 1 ⟨a, true⟩ o2 ho2 (by norm_num)]
    rw [runLines_append, runLines_ordinary_forced N b hb (1 + 1) a]
    rw [runLines_cons]
    rw [pipeStep_close_deep' N (1 + 1) ⟨a ++ b, true⟩ c1 hc1 (by norm_num)]
    rw [runLines_append,
      runLines_ordinary_forced N c hcl (1 + 1 - 1) (a ++ b)]
    rw [runLines_close_finish N (1 + 1 - 1) (by norm_num) ((a ++ b) ++ c)
      c2 hc2]
    simp [Shutdown_clean]
  · intro d cmd h
    exact frame_open d cmd h
  · intro d cmd h
    rw [frame_close d cmd h]
    by_cases hd : d = 1
    · simp [hd]
    · have h0 : d - 1 ≠ 0 := by omega
      simp [hd, h0]
  · intro d cmd x h
    rcases h with h | h
    · rw [frame_open d cmd h]
      by_cases hd : d = 0 <;> simp [hd]
    · rw [frame_close d cmd h]
      by_cases hd : d - 1 = 0 <;> simp [hd]

/-- Witness for C5: threshold 2, one command before the outer block, one
command in each region of the nested block. -/
theorem C5_nested_blocks_witness :
    RunBulk 2 [⟨"p", 0⟩, ⟨"\x7b", 1⟩, ⟨"q", 2⟩, ⟨"\x7b", 3⟩, ⟨"r", 4⟩,
        ⟨"\x7d", 5⟩, ⟨"s", 6⟩, ⟨"\x7d", 7⟩] =
      (chunksOf (2 : Int).toNat [(⟨"p", 0⟩ : Command)]).map
        BatchCommandProcessor.mkBulk ++
        (if ([(⟨"q", 2⟩ : Command)] ++ [⟨"r", 4⟩] ++ [⟨"s", 6⟩]) = [] then []
         else [BatchCommandProcessor.mkBulk
            ([(⟨"q", 2⟩ : Command)] ++ [⟨"r", 4⟩] ++ [⟨"s", 6⟩])]) :=
  (C5_nested_blocks 2 (by decide) (by decide) [⟨"p", 0⟩] [⟨"q", 2⟩]
    [⟨"r", 4⟩] [⟨"s", 6⟩] ⟨"\x7b", 1⟩ ⟨"\x7b", 3⟩ ⟨"\x7d", 5⟩ ⟨"\x7d", 7⟩
    rfl rfl rfl rfl (by decide) (by decide) (by decide) (by decide)).1

/-- C6 counterexample: the startup check rejects only a parsed value of
exactly 0; the negative threshold -1 parses to a nonzero value, so startup
succeeds and runs the pipeline, contradicting the claim that every
non-positive threshold fails at startup. -/
theorem C6_counterexample :
    atoi "-1" = -1 ∧ (-1 : Int) ≤ 0 ∧
      mainRun ["-1"] = ⟨0, [], some (-1)⟩ := by
  refine ⟨by decide, by norm_num, by decide⟩

/-- C6 amended: startup fails (exit code 1, a diagnostic on the error
stream, no pipeline constructed) exactly when the threshold argument is
missing or parses to 0 under atoi — covering non-numeric arguments and a
literal zero; any argument parsing to a nonzero value, negative values
included, constructs the pipeline with that value and the process exits
with status 0. In particular startup succeeds for every positive parsed
threshold. -/
theorem C6_startup_check (args : List String) :
    (args = [] →
      mainRun args = ⟨1, ["Bulk size is not specified."], none⟩) ∧
    (∀ a rest, args = a :: rest → atoi a = 0 →
      mainRun args = ⟨1, ["Invalid bulk size."], none⟩) ∧
    (∀ a rest, args = a :: rest → atoi a ≠ 0 →
      mainRun args = ⟨0, [], some (atoi a)⟩) := by
  refine ⟨?_, ?_, ?_⟩
  · intro h
    subst h
    rfl
  · intro a rest h h0
    subst h
    simp [mainRun, h0]
  · intro a rest h h0
    subst h
    simp [mainRun, h0]

/-- Witness for C6 amended: a missing argument, a non-numeric argument and
a positive numeric argument. -/
theorem C6_startup_check_witness :
    mainRun [] = ⟨1, ["Bulk size is not specified."], none⟩ ∧
    mainRun ["abc"] = ⟨1, ["Invalid bulk size."], none⟩ ∧
    mainRun ["5"] = ⟨0, [], some (atoi "5")⟩ :=
  ⟨(C6_startup_check []).1 rfl,
   (C6_startup_check ["abc"]).2.1 "abc" [] rfl (by decide),
   (C6_startup_check ["5"]).2.2 "5" [] rfl (by decide)⟩

/-- C7 counterexample: a single stray close token already drives the
framing stage's depth counter to -1, refuting the claim that no input
sequence ever makes the counter negative. -/
theorem C7_counterexample :
    (runLines 1 initState [⟨closeTok, 0⟩]).1.depth = -1 := by decide

/-- C7 amended: the invariant depth ≥ 0 holds at all times for every input
in which no prefix contains more close tokens than open tokens; a stray
close token at depth 0 (excluded by that condition) is the only way to
drive the counter negative. -/
theorem C7_depth_invariant (N : Int) (lines : List Command)
    (h : ∀ i, i ≤ lines.length →
      countClose (lines.take i) ≤ countOpen (lines.take i)) :
    ∀ i, i ≤ lines.length →
      0 ≤ (runLines N initState (lines.take i)).1.depth := by
  intro i hi
  have hcount := h i hi
  rw [runLines_depth]
  have hd : initState.depth = 0 := rfl
  omega

/-- Witness for C7 amended: a balanced block of three lines, checked at the
full length. -/
theorem C7_depth_invariant_witness :
    0 ≤ (runLines 3 initState
      (([⟨"\x7b", 0⟩, ⟨"x", 1⟩, ⟨"\x7d", 2⟩] : List Command).take 3)).1.depth :=
  C7_depth_invariant 3 _ (by decide) 3 (by decide)

theorem procList_noflush (N : Int) (cs : List Command) :
    ∀ b : List Command,
      b.length + cs.length < BatchCommandProcessor.sizeT N →
      procList N ⟨b, false⟩ cs = (⟨b ++ cs, false⟩, []) := by
  induction cs with
  | nil =>
    intro b _
    simp [procList]
  | cons c cs ih =>
    intro b h
    simp only [List.length_cons] at h
    simp only [procList, ProcessCommand_eval]
    rw [if_neg (fun hc => absurd hc.2 (by omega))]
    have hih := ih (b ++ [c]) (by simp; omega)
    simp [hih]

/-- C8: a negative threshold is accepted at startup (only a parsed value of
exactly 0 is rejected there), the size comparison converts it to a huge
unsigned value of 2^64 + N, and consequently as long as the batch is
shorter than that bound the size-based flush never fires: all ordinary
commands accumulate and the shutdown drain flushes the entire accumulation
as one single batch. -/
theorem C8_negative_threshold (N : Int) (hneg : N < 0)
    (hlo : -(2 ^ 31) ≤ N) (cmds : List Command) (hord : ordinary cmds)
    (hlen : cmds.length < BatchCommandProcessor.sizeT N) :
    BatchCommandProcessor.sizeT N = ((2 : Int) ^ 64 + N).toNat ∧
    (∀ s : String, atoi s = N → mainRun [s] = ⟨0, [], some N⟩) ∧
    RunBulk N cmds =
      (if cmds = [] then []
       else [BatchCommandProcessor.mkBulk cmds]) := by
  refine ⟨sizeT_of_neg hneg hlo, ?_, ?_⟩
  · intro s hs
    have h0 : N ≠ 0 := by omega
    simp [mainRun, hs, h0]
  · unfold RunBulk initState
    rw [runLines_ordinary N cmds hord 0 ⟨[], false⟩]
    rw [procList_noflush N cmds [] (by simpa using hlen)]
    rw [show ((⟨[] ++ cmds, false⟩, ([] : List Command)) :
        BatchCommandProcessor.State × List Command).1 =
        ⟨cmds, false⟩ by simp]
    rw [show ((⟨[] ++ cmds, false⟩, ([] : List Command)) :
        BatchCommandProcessor.State × List Command).2 =
        ([] : List Command) from rfl]
    rw [Shutdown_not_forced _ rfl, DumpBatch_snd]
    simp

/-- Witness for C8: threshold -1 with two ordinary commands collapsing into
one shutdown batch. -/
theorem C8_negative_threshold_witness :
    BatchCommandProcessor.sizeT (-1) = ((2 : Int) ^ 64 + -1).toNat ∧
    mainRun ["-1"] = ⟨0, [], some (-1)⟩ ∧
    RunBulk (-1) [⟨"a", 0⟩, ⟨"b", 1⟩] =
      (if ([⟨"a", 0⟩, ⟨"b", 1⟩] : List Command) = [] then []
       else [BatchCommandProcessor.mkBulk [⟨"a", 0⟩, ⟨"b", 1⟩]]) := by
  have h := C8_negative_threshold (-1) (by norm_num) (by norm_num)
    [⟨"a", 0⟩, ⟨"b", 1⟩] (by decide) (by decide)
  exact ⟨h.1, h.2.1 "-1" (by decide), h.2.2⟩

/-- C9: a stray close token at depth 0 drives the counter to -1; the next
open token only restores the depth to 0 without a start callback, and its
matching close token drives it back to -1 without a finish callback, so a
balanced pair after a stray close produces no block-boundary flushes and
the commands inside it are batched in ordinary size-threshold mode. -/
theorem C9_stray_close (N : Int) (hN : 0 < N) (h31 : N < 2 ^ 31)
    (mid : List Command) (hmid : ordinary mid) (b1 b2 b3 : Command)
    (h1 : b1.Text = closeTok) (h2 : b2.Text = openTok)
    (h3 : b3.Text = closeTok) :
    RunBulk N (b1 :: b2 :: (mid ++ [b3])) =
      (chunksOf N.toNat mid).map BatchCommandProcessor.mkBulk ∧
    ConsoleInput.ProcessCommand (-1) b2 = (0, none) ∧
    ConsoleInput.ProcessCommand 0 b3 = (-1, none) := by
  have hsz := sizeT_of_pos hN h31
  have hn : 0 < N.toNat := by omega
  refine ⟨?_, ?_, ?_⟩
  · unfold RunBulk initState
    rw [runLines_cons]
    rw [pipeStep_close_deep' N 0 ⟨[], false⟩ b1 h1 (by norm_num)]
    rw [runLines_cons]
    rw [pipeStep_open_deep' N (0 - 1) ⟨[], false⟩ b2 h2 (by norm_num)]
    rw [runLines_append,
      runLines_ordinary N mid hmid (0 - 1 + 1) ⟨[], false⟩]
    rw [runLines_cons]
    rw [pipeStep_close_deep' N (0 - 1 + 1)
      ((procList N ⟨[], false⟩ mid).1) b3 h3 (by norm_num)]
    have hflag := procList_flag N ⟨[], false⟩ mid
    have hmain := procList_chunks N N.toNat hn hsz mid [] hn
    simp only [List.nil_append] at hmain
    simp only [runLines, List.append_nil, List.nil_append]
    rw [Shutdown_not_forced _ hflag, ← Shutdown_not_forced _ hflag]
    exact hmain
  · rw [frame_open (-1) b2 h2]
    norm_num
  · rw [frame_close 0 b3 h3]
    norm_num

/-- Witness for C9: threshold 2 with three commands between the pair that
follows a stray close token; they flush purely by the size threshold. -/
theorem C9_stray_close_witness :
    RunBulk 2 [⟨"\x7d", 0⟩, ⟨"\x7b", 1⟩, ⟨"a", 2⟩, ⟨"b", 3⟩, ⟨"c", 4⟩,
        ⟨"\x7d", 5⟩] =
      (chunksOf (2 : Int).toNat
        ([⟨"a", 2⟩, ⟨"b", 3⟩, ⟨"c", 4⟩] : List Command)).map
        BatchCommandProcessor.mkBulk :=
  (C9_stray_close 2 (by decide) (by decide)
    [⟨"a", 2⟩, ⟨"b", 3⟩, ⟨"c", 4⟩] (by decide)
    ⟨"\x7d", 0⟩ ⟨"\x7b", 1⟩ ⟨"\x7d", 5⟩ rfl rfl rfl).1

/-- C10: an empty input line is an ordinary command: the framing stage
forwards it unchanged to the batch processor whatever the depth, it is
appended to the batch and counts toward the size threshold, and it
contributes an empty payload between the separators of its batch's joined
output. -/
theorem C10_empty_line :
    (∀ (d : Int) (t : Nat),
      ConsoleInput.ProcessCommand d ⟨"", t⟩ = (d, some (.forward ⟨"", t⟩))) ∧
    RunBulk 3 [⟨"a", 0⟩, ⟨"", 1⟩, ⟨"b", 2⟩] = [⟨"bulk: a, , b", 0⟩] := by
  constructor
  · intro d t
    apply frame_forward
    · show ("" : String) ≠ openTok
      decide
    · show ("" : String) ≠ closeTok
      decide
  · decide
